import Mathlib

/-!
Verification of the grouping/ordering core of the `cm-subnav-stacker`
Strapi admin plugin (`src/admin/src/components/SubNavInjector.tsx`),
shallowly embedded in Lean.

Strings are modelled as `List Char`.  JavaScript string primitives used by
the source (`split` on a substring, `trim`, `startsWith`, `slice`,
`includes`, the regex `^\[(\d+)\]\s*`, `localeCompare`, `toLowerCase`) are
given explicit executable models below.  `Array.prototype.sort` with a
comparator (stable since ES2019) is modelled by a stable structural
insertion sort `jsSort` on the boolean relation `comparator a b ≤ 0`.
-/

namespace SubNav

abbrev Str := List Char

def toStr (s : String) : Str := s.toList

/-- Model of the regex class `\d` (ASCII digits, as in JS `\d`). -/
def isDigitCh (c : Char) : Bool := decide ('0' ≤ c) && decide (c ≤ '9')

/-- Model of the regex class `\s` restricted to its ASCII members
(space, tab, line feed, vertical tab, form feed, carriage return). -/
def isJsWs (c : Char) : Bool :=
  c = ' ' || c = '\t' || c = '\n' || c = '\x0b' || c = '\x0c' || c = '\r'

/-- Model of JS `String.prototype.toLowerCase` (ASCII range, via
`Char.toLower`). -/
def lowerStr (s : Str) : Str := s.map Char.toLower

/-- Model of JS `String.prototype.trim`. -/
def trimStr (s : Str) : Str :=
  ((s.dropWhile isJsWs).reverse.dropWhile isJsWs).reverse

/-- `leadsWith p s` models JS `s.startsWith(p)`. -/
def leadsWith : Str → Str → Bool
  | [], _ => true
  | _ :: _, [] => false
  | p :: ps, c :: cs => (p = c) && leadsWith ps cs

/-- `occursIn p s` models JS `s.includes(p)`: `p` occurs as a contiguous
substring of `s`. -/
def occursIn (p : Str) : Str → Bool
  | [] => leadsWith p []
  | c :: cs => leadsWith p (c :: cs) || occursIn p cs

/-- Model of JS `parseInt(digits, 10)` on a digit string. -/
def digitsToNat (ds : Str) : Nat :=
  ds.foldl (fun n c => n * 10 + (c.toNat - '0'.toNat)) 0

/-- Three-way lexical comparison of character lists (characters compared by
code point, as JS string comparison does). -/
def lexCmp : Str → Str → Int
  | [], [] => 0
  | [], _ :: _ => -1
  | _ :: _, [] => 1
  | a :: as, b :: bs =>
    if a < b then -1 else if b < a then 1 else lexCmp as bs

/-- Model of JS `String.prototype.localeCompare`: a case-insensitive-aware
lexical comparison — primarily case-insensitive, with the raw code-point
comparison as a tie break. -/
def localeCompare (a b : Str) : Int :=
  if lexCmp (lowerStr a) (lowerStr b) = 0 then lexCmp a b
  else lexCmp (lowerStr a) (lowerStr b)

/-- Insert `x` into `l` before the first element it is `le`-below. -/
def insertSorted {α : Type} (le : α → α → Bool) (x : α) : List α → List α
  | [] => [x]
  | y :: ys => if le x y then x :: y :: ys else y :: insertSorted le x ys

/-- Model of `Array.prototype.sort(comparator)` (stable since ES2019) on
the boolean relation `comparator a b ≤ 0`: a stable insertion sort.  For a
consistent comparator (a total preorder — which `itemCmp` always is, and
`groupCmp` is on every list the grouping engine can produce, since group
names there are unique) every stable sort yields the same output, so this
models the engine-visible behaviour exactly. -/
def jsSort {α : Type} (le : α → α → Bool) : List α → List α
  | [] => []
  | x :: xs => insertSorted le x (jsSort le xs)

-- ### Data model (SubNavInjector.tsx, type definitions)

/-- `kind: 'collectionType' | 'singleType'` -/
inductive CTKind where
  | collectionType
  | singleType
deriving DecidableEq

/-- `interface ContentType` (SubNavInjector.tsx lines 28-37). -/
structure ContentType where
  uid : Str
  name : Str
  displayName : Str
  group : Str
  isDisplayed : Bool
  href : Str
  kind : CTKind
  sortOrder : Nat
deriving DecidableEq

/-- `interface ContentTypeGroup` (SubNavInjector.tsx lines 39-43). -/
structure ContentTypeGroup where
  name : Str
  items : List ContentType
  sortOrder : Nat
deriving DecidableEq

/-- Raw record from the content-type listing, as read by
`formatContentTypes`: `ct.uid`, `ct.apiID`, `ct.schema.displayName`
(possibly absent), `ct.schema.kind`. -/
structure RawCT where
  uid : Str
  apiID : Str
  schemaDisplayName : Option Str
  kind : CTKind
deriving DecidableEq

/-- Admin permission record `{action, subject}`; both fields may be absent
or null (the source optional-chains `p.action?.`, and `subject` is nullable
in Strapi). -/
structure Permission where
  action : Option Str
  subject : Option Str
deriving DecidableEq

/-- `const defaultDelimiter: string = ' | '` -/
def defaultDelimiter : Str := toStr " | "

/-- `const defaultTemplate: Template = 'accordion'` -/
def defaultTemplate : Str := toStr "accordion"

def generalName : Str := toStr "General"

/-- Model of the JS `a || b` fallback on an optional string value: an
absent field or the (falsy) empty string yields the fallback. -/
def jsOrStr (v : Option Str) (dflt : Str) : Str :=
  match v with
  | some s => if s = [] then dflt else s
  | none => dflt

-- ### Descriptor Normalizer (SubNavInjector.tsx lines 83-146)

/-- Result of matching `displayName.match(/^\[(\d+)\]\s*/)`: on success,
the captured integer and the display name with the matched part removed
(the source removes it with `replace(/^\[\d+\]\s*/, '')`, the same
pattern).  `\d+` is greedy, but since `]` is not a digit the maximal-munch
parse below is equivalent to the backtracking regex. -/
def hintMatch (s : Str) : Option (Nat × Str) :=
  match s with
  | [] => none
  | c :: rest =>
    if c = '[' then
      if rest.takeWhile isDigitCh ≠ [] ∧
          (rest.drop (rest.takeWhile isDigitCh).length).head? = some ']' then
        some (digitsToNat (rest.takeWhile isDigitCh),
          (rest.drop (rest.takeWhile isDigitCh).length).tail.dropWhile isJsWs)
      else none
    else none

/-- `extractSortOrder` (lines 129-137): returns
`{ sortOrder, cleanDisplayName }`, modelled as a pair. -/
def extractSortOrder (displayName : Str) (defaultSortOrder : Nat) : Nat × Str :=
  match hintMatch displayName with
  | some r => r
  | none => (defaultSortOrder, displayName)

/-- First segment of `s.split(delimiter)` for a nonempty delimiter: the
part of `s` before the first occurrence of `d` (all of `s` if none). -/
def splitFirstSeg (d : Str) : Str → Str
  | [] => []
  | c :: cs => if leadsWith d (c :: cs) then [] else c :: splitFirstSeg d cs

/-- `getContentTypeGroup` (lines 142-146):
`displayName.split(delimiter).map((name) => name.trim())[0]`.
For an empty delimiter, JS `split('')` yields the list of characters
(`[0]` is the first character, or `undefined` — modelled as the empty
string — when the string is empty). -/
def getContentTypeGroup (delimiter displayName : Str) : Str :=
  if delimiter = [] then
    match displayName with
    | [] => []
    | c :: _ => trimStr [c]
  else trimStr (splitFirstSeg delimiter displayName)

/-- `ct.schema.displayName || ct.apiID` (line 95). -/
def rawDisplayName (r : RawCT) : Str := jsOrStr r.schemaDisplayName r.apiID

/-- `return ct.uid.startsWith('api::') || ct.uid.startsWith('plugin::')`
(line 92): the namespace filter. -/
def keepNS (r : RawCT) : Bool :=
  leadsWith (toStr "api::") r.uid || leadsWith (toStr "plugin::") r.uid

/-- href synthesis (lines 115-117). -/
def hrefOf (kind : CTKind) (uid : Str) : Str :=
  toStr "/admin/content-manager/" ++
    (match kind with
     | .singleType => toStr "single-types"
     | .collectionType => toStr "collection-types") ++
    toStr "/" ++ uid

/-- Body of the `.map` callback in `formatContentTypes` (lines 94-121). -/
def formatOne (delimiter : Str) (defaultSortOrder : Nat) (r : RawCT) : ContentType :=
  let displayName := rawDisplayName r
  let so := extractSortOrder displayName defaultSortOrder
  let cleanDisplayName := so.2
  let groupName := getContentTypeGroup delimiter cleanDisplayName
  let newDisplayName :=
    if leadsWith (groupName ++ delimiter) cleanDisplayName then
      cleanDisplayName.drop (groupName ++ delimiter).length
    else cleanDisplayName
  { uid := r.uid
    name := r.apiID
    displayName := newDisplayName
    group := groupName
    isDisplayed := true
    href := hrefOf r.kind r.uid
    kind := r.kind
    sortOrder := so.1 }

/-- `formatContentTypes` (lines 83-122).  The `!data || !data.data` guard
is modelled by taking the record list directly; `defaultSortOrder` is
`data.data.length + 1000`, computed BEFORE the namespace filter. -/
def formatContentTypes (delimiter : Str) (data : List RawCT) : List ContentType :=
  let defaultSortOrder := data.length + 1000
  (data.filter keepNS).map (formatOne delimiter defaultSortOrder)

-- ### Grouping Engine (`organizeByGroups`, lines 288-340)

/-- `contentType.group || 'General'` (line 293). -/
def groupKey (ct : ContentType) : Str :=
  if ct.group = [] then generalName else ct.group

/-- `groupMap[groupName].push(contentType)` on a JS object whose string
keys iterate in insertion order: an association list, appending to an
existing key or adding a new key at the end. -/
def insertGrouped : List (Str × List ContentType) → Str → ContentType →
    List (Str × List ContentType)
  | [], k, ct => [(k, [ct])]
  | (k0, items) :: rest, k, ct =>
    if k0 = k then (k0, items ++ [ct]) :: rest
    else (k0, items) :: insertGrouped rest k ct

/-- The `groupMap` built by the `forEach` loop (lines 290-298). -/
def groupMapOf (contentTypes : List ContentType) : List (Str × List ContentType) :=
  contentTypes.foldl (fun m ct => insertGrouped m (groupKey ct) ct) []

/-- The item comparator (lines 302-309): sortOrder difference, ties by
`displayName.localeCompare`. -/
def itemCmp (a b : ContentType) : Int :=
  if a.sortOrder ≠ b.sortOrder then (a.sortOrder : Int) - (b.sortOrder : Int)
  else localeCompare a.displayName b.displayName

def itemLe (a b : ContentType) : Bool := decide (itemCmp a b ≤ 0)

/-- `Math.min(...items.map(item => item.sortOrder))` (line 315); the
groups produced by `organizeByGroups` always have at least one item, so
the empty case (JS `Infinity`) is unreachable and modelled as `0`. -/
def minSortOrder : List ContentType → Nat
  | [] => 0
  | x :: xs => xs.foldl (fun m i => min m i.sortOrder) x.sortOrder

/-- The group comparator (lines 326-337): `"General"` pinned first, then
sortOrder difference, ties by `name.localeCompare`. -/
def groupCmp (a b : ContentTypeGroup) : Int :=
  if a.name = generalName then -1
  else if b.name = generalName then 1
  else if a.sortOrder ≠ b.sortOrder then (a.sortOrder : Int) - (b.sortOrder : Int)
  else localeCompare a.name b.name

def groupLe (a b : ContentTypeGroup) : Bool := decide (groupCmp a b ≤ 0)

/-- `organizeByGroups` (lines 288-340): group, sort items in each group
(in-place, before `Object.entries` reads the map), build the groups with
their minimum sortOrder, and sort the groups.  `Array.prototype.sort`
(stable) is modelled by the stable `jsSort` on `cmp · · ≤ 0`. -/
def organizeByGroups (contentTypes : List ContentType) : List ContentTypeGroup :=
  let entries := (groupMapOf contentTypes).map (fun e => (e.1, jsSort itemLe e.2))
  let groups := entries.map (fun e =>
    { name := e.1, items := e.2, sortOrder := minSortOrder e.2 : ContentTypeGroup })
  jsSort groupLe groups

-- ### Renderers (kind partition, e.g. `OfficialContentTypeGroupSection`,
-- lines 359-374; `V5ContentTypeGroupSection` and
-- `AccordionContentTypeGroupSection` compute the same list)

def collectionItems (g : ContentTypeGroup) : List ContentType :=
  g.items.filter (fun item => item.kind == CTKind.collectionType)

def singleItems (g : ContentTypeGroup) : List ContentType :=
  g.items.filter (fun item => item.kind == CTKind.singleType)

/-- `const allTypes = [...collectionTypes, ...singleTypes]` (line 366). -/
def allTypes (g : ContentTypeGroup) : List ContentType :=
  collectionItems g ++ singleItems g

/-- The renderer's group body: `if (group.items.length === 0) return null`
(line 361), otherwise it renders the links of `allTypes`. -/
def officialSectionItems (g : ContentTypeGroup) : Option (List ContentType) :=
  if g.items.length = 0 then none else some (allTypes g)

-- ### Permission filtering (`NavigationApp.fetchContentTypes`,
-- lines 773-802)

def cmReadAction : Str := toStr "plugin::content-manager.explorer.read"

/-- `p.action?.includes(needle)`: `undefined` is falsy. -/
def optContains (o : Option Str) (needle : Str) : Bool :=
  match o with
  | some s => occursIn needle s
  | none => false

/-- The predicate of the `.filter` callback (lines 778-795). -/
def allowedCT (permissions : List Permission) (ct : ContentType) : Bool :=
  let hasContentManagerRead := permissions.any (fun p =>
    p.action == some cmReadAction && p.subject == some ct.uid)
  let isPluginContentType := leadsWith (toStr "plugin::") ct.uid
  let hasPluginRead := isPluginContentType && permissions.any (fun p =>
    p.subject == some ct.uid &&
      (optContains p.action (toStr "read") || optContains p.action (toStr "find") ||
        p.action == some cmReadAction))
  hasContentManagerRead || hasPluginRead

/-- `if (permissions.length > 0) { ...filter... } else { all }`
(lines 777-802): the fail-open permission filter. -/
def filterByPermissions (permissions : List Permission)
    (contentTypes : List ContentType) : List ContentType :=
  if permissions.length > 0 then contentTypes.filter (allowedCT permissions)
  else contentTypes

/-- The grouping pipeline applied to a fetched listing with a permission
set: permission filter, then `organizeByGroups` (lines 773-809). -/
def buildGroups (permissions : List Permission)
    (contentTypes : List ContentType) : List ContentTypeGroup :=
  organizeByGroups (filterByPermissions permissions contentTypes)

-- ### Configuration resolution (`getPluginConfig`, lines 61-78)

/-- The `/cm-subnav-stacker/config` response body: `{delimiter?, template?}`,
each field possibly absent, null, or the empty string.  `none` at the outer
level models a falsy parsed body (the `if (config)` guard). -/
structure ConfigResponse where
  delimiter : Option Str
  template : Option Str
deriving DecidableEq

/-- `getPluginConfig` (lines 61-78): environment variables (absent or
falsy-empty fall back to the built-in defaults via `||`), then the config
response fields, again through `||`. -/
def getPluginConfig (envDelimiter envTemplate : Option Str)
    (resp : Option ConfigResponse) : Str × Str :=
  let delimiter := jsOrStr envDelimiter defaultDelimiter
  let template := jsOrStr envTemplate defaultTemplate
  match resp with
  | none => (delimiter, template)
  | some c => (jsOrStr c.delimiter delimiter, jsOrStr c.template template)

-- ### Host synchronization: mount idempotence
-- (`setupNavigationReplacement.processNavigation`, lines 1095-1123, and
-- `setupContinuousNavigationCheck`, lines 1194-1260)

/-- A DOM element carrying `id="stack-nav-container"`: its node identity
and its number of children. -/
structure StackNavContainer where
  nodeId : Nat
  childCount : Nat
deriving DecidableEq

/-- The part of the document state `processNavigation` reads and writes:
the elements with id `stack-nav-container` in document order
(`document.getElementById` returns the first), plus a supply of fresh node
identities for `document.createElement`. -/
structure NavDomState where
  containers : List StackNavContainer
  nextId : Nat
deriving DecidableEq

/-- `processNavigation` (lines 1095-1123): if `#stack-nav-container`
already exists, re-render into it only when it has no children (rendering
mounts the React tree, giving it a child); otherwise create a fresh `li`
container, prepend it, and render into it. -/
def processNavigation (s : NavDomState) : NavDomState :=
  match s.containers with
  | [] => { containers := [{ nodeId := s.nextId, childCount := 1 }], nextId := s.nextId + 1 }
  | c :: rest =>
    if c.childCount = 0 then
      { s with containers := { c with childCount := 1 } :: rest }
    else s

/-- One tick of the 100ms interval in `setupContinuousNavigationCheck`
(lines 1209-1258): it calls `setupNavigationReplacement` (and hence
`processNavigation`) only when `document.getElementById('stack-nav-container')`
is null; otherwise it leaves the container alone. -/
def intervalStep (s : NavDomState) : NavDomState :=
  if s.containers.isEmpty then processNavigation s else s

/-- An arbitrary interleaving of the two redundant mechanisms:
`true` = the mutation observer re-running the mount
(`setupNavigationReplacement` → `processNavigation`), `false` = an
interval tick. -/
def runSteps (steps : List Bool) (s : NavDomState) : NavDomState :=
  steps.foldl (fun st b => if b then processNavigation st else intervalStep st) s

/-- A string whose first character (if any) is not regex whitespace; used
to state that a remainder is exactly what the greedy `\s*` leaves. -/
def headNotWs (s : Str) : Bool :=
  match s with
  | [] => true
  | c :: _ => !isJsWs c

/-- The within-group ordering of §3's invariants, as a proposition:
sortOrder ascending, ties broken by the (case-insensitive-aware) lexical
comparison of display names. -/
def itemOrd (a b : ContentType) : Prop :=
  a.sortOrder < b.sortOrder ∨
    (a.sortOrder = b.sortOrder ∧ localeCompare a.displayName b.displayName ≤ 0)

/-- The inter-group ordering (after the "General" pin): group sortOrder
ascending, ties broken lexically by group name. -/
def groupOrd (a b : ContentTypeGroup) : Prop :=
  a.sortOrder < b.sortOrder ∨
    (a.sortOrder = b.sortOrder ∧ localeCompare a.name b.name ≤ 0)

-- ### Concrete example inputs used to exercise the theorems

def exRawHinted : RawCT :=
  { uid := toStr "api::a.a", apiID := toStr "a",
    schemaDisplayName := some (toStr "[2000] A | X"), kind := .collectionType }

def exRawHintedSmall : RawCT :=
  { uid := toStr "api::c.c", apiID := toStr "c",
    schemaDisplayName := some (toStr "[2] A | X"), kind := .collectionType }

def exRawUnhinted : RawCT :=
  { uid := toStr "api::b.b", apiID := toStr "b",
    schemaDisplayName := some (toStr "A | Y"), kind := .collectionType }

def exRawUnhintedZ : RawCT :=
  { uid := toStr "api::d.d", apiID := toStr "d",
    schemaDisplayName := some (toStr "A | Z"), kind := .collectionType }

def exRawAdmin : RawCT :=
  { uid := toStr "admin::x", apiID := toStr "x",
    schemaDisplayName := none, kind := .collectionType }

def exRawSpace : RawCT :=
  { uid := toStr "api::s.s", apiID := toStr "s",
    schemaDisplayName := some (toStr " Settings"), kind := .singleType }

def exRawPlain : RawCT :=
  { uid := toStr "api::t.t", apiID := toStr "t",
    schemaDisplayName := some (toStr "Settings"), kind := .singleType }

def exDataC1 : List RawCT := [exRawHintedSmall, exRawUnhinted, exRawUnhintedZ]

def exCtX : ContentType := formatOne (toStr " | ") 1003 exRawHintedSmall
def exCtY : ContentType := formatOne (toStr " | ") 1003 exRawUnhinted
def exCtZ : ContentType := formatOne (toStr " | ") 1003 exRawUnhintedZ

def exGroupC1 : ContentTypeGroup :=
  { name := toStr "A", items := [exCtX, exCtY, exCtZ], sortOrder := 2 }

def exCtA : ContentType :=
  { uid := toStr "api::a.a", name := toStr "a", displayName := toStr "X",
    group := toStr "A", isDisplayed := true,
    href := hrefOf .collectionType (toStr "api::a.a"), kind := .collectionType,
    sortOrder := 2 }

def exCtB : ContentType :=
  { uid := toStr "api::b.b", name := toStr "b", displayName := toStr "Y",
    group := toStr "A", isDisplayed := true,
    href := hrefOf .singleType (toStr "api::b.b"), kind := .singleType,
    sortOrder := 1002 }

def exCtGen : ContentType :=
  { uid := toStr "api::g.g", name := toStr "g", displayName := toStr "Gen",
    group := generalName, isDisplayed := true,
    href := hrefOf .collectionType (toStr "api::g.g"), kind := .collectionType,
    sortOrder := 1000 }

def exGroupAB : ContentTypeGroup :=
  { name := toStr "A", items := [exCtA, exCtB], sortOrder := 2 }

def exGroup1 : ContentTypeGroup :=
  { name := toStr "A", items := [exCtA], sortOrder := 2 }

def exGroupGen : ContentTypeGroup :=
  { name := generalName, items := [exCtGen], sortOrder := 1000 }

def exPerm : Permission :=
  { action := some cmReadAction, subject := some (toStr "api::a.a") }

-- ## Theorems

-- ### Basic lemmas about the string model

theorem leadsWith_nil_left (s : Str) : leadsWith [] s = true := by
  cases s <;> rfl

theorem leadsWith_iff (p s : Str) : leadsWith p s = true ↔ ∃ t, s = p ++ t := by
  induction p generalizing s with
  | nil => simp [leadsWith_nil_left]
  | cons x xs ih =>
    cases s with
    | nil =>
      simp only [leadsWith]
      constructor
      · intro h; cases h
      · rintro ⟨t, ht⟩; cases ht
    | cons c cs =>
      simp only [leadsWith, Bool.and_eq_true, decide_eq_true_eq, ih]
      constructor
      · rintro ⟨rfl, t, rfl⟩; exact ⟨t, rfl⟩
      · rintro ⟨t, ht⟩
        injection ht with h1 h2
        exact ⟨h1.symm, t, h2⟩

theorem leadsWith_self_append (p t : Str) : leadsWith p (p ++ t) = true :=
  (leadsWith_iff p (p ++ t)).mpr ⟨t, rfl⟩

theorem occursIn_of_leadsWith {d s : Str} (h : leadsWith d s = true) :
    occursIn d s = true := by
  cases s with
  | nil =>
    cases d with
    | nil => rfl
    | cons a as => simp [leadsWith] at h
  | cons c cs => simp [occursIn, h]

theorem occursIn_append (d x y : Str) : occursIn d (x ++ d ++ y) = true := by
  induction x with
  | nil => simpa using occursIn_of_leadsWith (leadsWith_self_append d y)
  | cons c cs ih =>
    simp only [List.cons_append, List.append_assoc, occursIn]
    simp only [List.append_assoc] at ih
    simp [ih]

theorem occursIn_nil_pattern (s : Str) : occursIn [] s = true := by
  cases s <;> simp [occursIn, leadsWith]

theorem ne_nil_of_not_occursIn {d s : Str} (h : occursIn d s = false) : d ≠ [] := by
  intro hd; subst hd; rw [occursIn_nil_pattern] at h; cases h

theorem not_leadsWith_of_not_occursIn {d s : Str} (h : occursIn d s = false) :
    leadsWith d s = false := by
  cases s with
  | nil => simp [occursIn] at h; exact h
  | cons c cs =>
    simp only [occursIn, Bool.or_eq_false_iff] at h
    exact h.1

theorem occursIn_tail {d : Str} {c : Char} {cs : Str}
    (h : occursIn d (c :: cs) = false) : occursIn d cs = false := by
  simp only [occursIn, Bool.or_eq_false_iff] at h
  exact h.2

-- ### lexCmp lemmas

theorem lexCmp_swap (a b : Str) : lexCmp b a = -lexCmp a b := by
  induction a generalizing b with
  | nil => cases b <;> simp [lexCmp]
  | cons x xs ih =>
    cases b with
    | nil => simp [lexCmp]
    | cons y ys =>
      simp only [lexCmp]
      rcases lt_trichotomy x y with h | h | h
      · simp [h, not_lt.mpr (le_of_lt h), ne_of_gt h]
      · subst h; simp [lt_irrefl, ih]
      · simp [h, not_lt.mpr (le_of_lt h), ne_of_gt h]

theorem lexCmp_eq_zero_iff (a b : Str) : lexCmp a b = 0 ↔ a = b := by
  induction a generalizing b with
  | nil => cases b <;> simp [lexCmp]
  | cons x xs ih =>
    cases b with
    | nil => simp [lexCmp]
    | cons y ys =>
      simp only [lexCmp]
      rcases lt_trichotomy x y with h | h | h
      · simp [h]
        intro hx
        exact absurd hx (ne_of_lt h)
      · subst h; simp [lt_irrefl, ih]
      · simp [h, not_lt.mpr (le_of_lt h)]
        intro hx
        exact absurd hx.symm (ne_of_lt h)

theorem lexCmp_trans {a b c : Str} (hab : lexCmp a b ≤ 0) (hbc : lexCmp b c ≤ 0) :
    lexCmp a c ≤ 0 := by
  induction a generalizing b c with
  | nil => cases c <;> simp [lexCmp]
  | cons x xs ih =>
    cases b with
    | nil => simp [lexCmp] at hab
    | cons y ys =>
      cases c with
      | nil => simp [lexCmp] at hbc
      | cons z zs =>
        simp only [lexCmp] at hab hbc ⊢
        rcases lt_trichotomy x y with hxy | hxy | hxy
        · rcases lt_trichotomy y z with hyz | hyz | hyz
          · simp [lt_trans hxy hyz]
          · subst hyz; simp [hxy]
          · rw [if_neg (lt_asymm hyz), if_pos hyz] at hbc
            omega
        · subst hxy
          rw [if_neg (lt_irrefl x), if_neg (lt_irrefl x)] at hab
          rcases lt_trichotomy x z with hxz | hxz | hxz
          · simp [hxz]
          · subst hxz
            rw [if_neg (lt_irrefl x), if_neg (lt_irrefl x)] at hbc
            rw [if_neg (lt_irrefl x), if_neg (lt_irrefl x)]
            exact ih hab hbc
          · rw [if_neg (lt_asymm hxz), if_pos hxz] at hbc
            omega
        · rw [if_neg (lt_asymm hxy), if_pos hxy] at hab
          omega

-- ### localeCompare lemmas

theorem localeCompare_swap (a b : Str) : localeCompare b a = -localeCompare a b := by
  unfold localeCompare
  rw [lexCmp_swap (lowerStr a) (lowerStr b), lexCmp_swap a b]
  by_cases h : lexCmp (lowerStr a) (lowerStr b) = 0
  · simp [h]
  · rw [if_neg h, if_neg (by omega)]

theorem localeCompare_total (a b : Str) :
    localeCompare a b ≤ 0 ∨ localeCompare b a ≤ 0 := by
  rw [localeCompare_swap a b]
  omega

theorem localeCompare_trans {a b c : Str} (hab : localeCompare a b ≤ 0)
    (hbc : localeCompare b c ≤ 0) : localeCompare a c ≤ 0 := by
  unfold localeCompare at hab hbc ⊢
  by_cases h1 : lexCmp (lowerStr a) (lowerStr b) = 0
  · have hab' : lowerStr a = lowerStr b := (lexCmp_eq_zero_iff _ _).mp h1
    rw [if_pos h1] at hab
    by_cases h2 : lexCmp (lowerStr b) (lowerStr c) = 0
    · have hbc' : lowerStr b = lowerStr c := (lexCmp_eq_zero_iff _ _).mp h2
      rw [if_pos h2] at hbc
      rw [if_pos (by rw [hab', hbc']; exact (lexCmp_eq_zero_iff _ _).mpr rfl)]
      exact lexCmp_trans hab hbc
    · rw [if_neg h2] at hbc
      rw [hab']
      rw [if_neg h2]
      exact hbc
  · rw [if_neg h1] at hab
    by_cases h2 : lexCmp (lowerStr b) (lowerStr c) = 0
    · have hbc' : lowerStr b = lowerStr c := (lexCmp_eq_zero_iff _ _).mp h2
      rw [← hbc']
      rw [if_neg h1]
      exact hab
    · rw [if_neg h2] at hbc
      have hac : lexCmp (lowerStr a) (lowerStr c) ≤ 0 := lexCmp_trans hab hbc
      by_cases h3 : lexCmp (lowerStr a) (lowerStr c) = 0
      · exfalso
        have : lowerStr a = lowerStr c := (lexCmp_eq_zero_iff _ _).mp h3
        rw [this] at hab
        rw [lexCmp_swap (lowerStr b) (lowerStr c)] at hab
        omega
      · rw [if_neg h3]
        exact hac


-- ### jsSort lemmas

theorem insertSorted_perm {α : Type} (le : α → α → Bool) (x : α) (l : List α) :
    List.Perm (insertSorted le x l) (x :: l) := by
  induction l with
  | nil => exact List.Perm.refl _
  | cons y ys ih =>
    by_cases h : le x y = true
    · rw [insertSorted, if_pos h]
    · rw [insertSorted, if_neg h]
      exact (ih.cons y).trans (List.Perm.swap x y ys)

theorem jsSort_perm {α : Type} (le : α → α → Bool) (l : List α) :
    List.Perm (jsSort le l) l := by
  induction l with
  | nil => exact List.Perm.refl _
  | cons x xs ih => exact (insertSorted_perm le x (jsSort le xs)).trans (ih.cons x)

theorem mem_jsSort {α : Type} {le : α → α → Bool} {a : α} {l : List α} :
    a ∈ jsSort le l ↔ a ∈ l :=
  (jsSort_perm le l).mem_iff

theorem length_jsSort {α : Type} (le : α → α → Bool) (l : List α) :
    (jsSort le l).length = l.length :=
  (jsSort_perm le l).length_eq

theorem insertSorted_pairwise {α : Type} {le : α → α → Bool}
    (trans : ∀ a b c, le a b = true → le b c = true → le a c = true)
    (total : ∀ a b, le a b = true ∨ le b a = true)
    (x : α) {l : List α} (hl : l.Pairwise (fun a b => le a b = true)) :
    (insertSorted le x l).Pairwise (fun a b => le a b = true) := by
  induction l with
  | nil => exact List.pairwise_singleton _ _
  | cons y ys ih =>
    rcases List.pairwise_cons.mp hl with ⟨hy, hys⟩
    by_cases h : le x y = true
    · rw [insertSorted, if_pos h]
      refine List.pairwise_cons.mpr ⟨?_, hl⟩
      intro z hz
      rcases List.mem_cons.mp hz with rfl | hz'
      · exact h
      · exact trans x y z h (hy z hz')
    · rw [insertSorted, if_neg h]
      refine List.pairwise_cons.mpr ⟨?_, ih hys⟩
      intro z hz
      have hz' := (insertSorted_perm le x ys).mem_iff.mp hz
      rcases List.mem_cons.mp hz' with rfl | hz''
      · rcases total z y with ht | ht
        · exact absurd ht h
        · exact ht
      · exact hy z hz''

theorem jsSort_pairwise {α : Type} {le : α → α → Bool}
    (trans : ∀ a b c, le a b = true → le b c = true → le a c = true)
    (total : ∀ a b, le a b = true ∨ le b a = true) (l : List α) :
    (jsSort le l).Pairwise (fun a b => le a b = true) := by
  induction l with
  | nil => exact List.Pairwise.nil
  | cons x xs ih => exact insertSorted_pairwise trans total x ih

-- ### Comparator lemmas

theorem itemLe_iff (a b : ContentType) : itemLe a b = true ↔ itemOrd a b := by
  unfold itemLe itemCmp itemOrd
  by_cases h : a.sortOrder = b.sortOrder
  · simp [h]
  · rw [if_pos h]
    simp only [decide_eq_true_eq]
    constructor
    · intro hle
      left
      omega
    · intro ho
      rcases ho with ho | ho
      · omega
      · exact absurd ho.1 h

theorem itemOrd_trans {a b c : ContentType} (hab : itemOrd a b) (hbc : itemOrd b c) :
    itemOrd a c := by
  rcases hab with h1 | ⟨h1, h1'⟩ <;> rcases hbc with h2 | ⟨h2, h2'⟩
  · exact Or.inl (lt_trans h1 h2)
  · exact Or.inl (h2 ▸ h1)
  · exact Or.inl (h1 ▸ h2)
  · exact Or.inr ⟨h1.trans h2, localeCompare_trans h1' h2'⟩

theorem itemLe_trans (a b c : ContentType) (hab : itemLe a b) (hbc : itemLe b c) :
    itemLe a c :=
  (itemLe_iff a c).mpr (itemOrd_trans ((itemLe_iff a b).mp hab) ((itemLe_iff b c).mp hbc))

theorem itemLe_total (a b : ContentType) : itemLe a b = true ∨ itemLe b a = true := by
  rw [itemLe_iff, itemLe_iff]
  unfold itemOrd
  rcases lt_trichotomy a.sortOrder b.sortOrder with h | h | h
  · exact Or.inl (Or.inl h)
  · rcases localeCompare_total a.displayName b.displayName with hl | hl
    · exact Or.inl (Or.inr ⟨h, hl⟩)
    · exact Or.inr (Or.inr ⟨h.symm, hl⟩)
  · exact Or.inr (Or.inl h)

theorem groupLe_of_general {a b : ContentTypeGroup} (h : a.name = generalName) :
    groupLe a b = true := by
  unfold groupLe groupCmp
  rw [if_pos h]
  decide

theorem general_of_groupLe {a b : ContentTypeGroup} (hle : groupLe a b = true)
    (hb : b.name = generalName) : a.name = generalName := by
  by_contra ha
  unfold groupLe groupCmp at hle
  rw [if_neg ha, if_pos hb] at hle
  simp at hle

theorem groupLe_iff_of_ne {a b : ContentTypeGroup} (ha : a.name ≠ generalName)
    (hb : b.name ≠ generalName) : groupLe a b = true ↔ groupOrd a b := by
  unfold groupLe groupCmp groupOrd
  rw [if_neg ha, if_neg hb]
  by_cases h : a.sortOrder = b.sortOrder
  · simp [h]
  · rw [if_pos h]
    simp only [decide_eq_true_eq]
    constructor
    · intro hle
      left
      omega
    · intro ho
      rcases ho with ho | ho
      · omega
      · exact absurd ho.1 h

theorem groupOrd_trans {a b c : ContentTypeGroup} (hab : groupOrd a b)
    (hbc : groupOrd b c) : groupOrd a c := by
  rcases hab with h1 | ⟨h1, h1'⟩ <;> rcases hbc with h2 | ⟨h2, h2'⟩
  · exact Or.inl (lt_trans h1 h2)
  · exact Or.inl (h2 ▸ h1)
  · exact Or.inl (h1 ▸ h2)
  · exact Or.inr ⟨h1.trans h2, localeCompare_trans h1' h2'⟩

theorem groupLe_trans (a b c : ContentTypeGroup) (hab : groupLe a b)
    (hbc : groupLe b c) : groupLe a c := by
  by_cases ha : a.name = generalName
  · exact groupLe_of_general ha
  · by_cases hb : b.name = generalName
    · exact absurd (general_of_groupLe hab hb) ha
    · by_cases hc : c.name = generalName
      · exact absurd (general_of_groupLe hbc hc) hb
      · exact (groupLe_iff_of_ne ha hc).mpr
          (groupOrd_trans ((groupLe_iff_of_ne ha hb).mp hab)
            ((groupLe_iff_of_ne hb hc).mp hbc))

theorem groupLe_total (a b : ContentTypeGroup) :
    groupLe a b = true ∨ groupLe b a = true := by
  by_cases ha : a.name = generalName
  · exact Or.inl (groupLe_of_general ha)
  · by_cases hb : b.name = generalName
    · exact Or.inr (groupLe_of_general hb)
    · rw [groupLe_iff_of_ne ha hb, groupLe_iff_of_ne hb ha]
      unfold groupOrd
      rcases lt_trichotomy a.sortOrder b.sortOrder with h | h | h
      · exact Or.inl (Or.inl h)
      · rcases localeCompare_total a.name b.name with hl | hl
        · exact Or.inl (Or.inr ⟨h, hl⟩)
        · exact Or.inr (Or.inr ⟨h.symm, hl⟩)
      · exact Or.inr (Or.inl h)

-- ### Structural lemmas about organizeByGroups

theorem mem_organizeByGroups {contentTypes : List ContentType} {g : ContentTypeGroup} :
    g ∈ organizeByGroups contentTypes ↔
      ∃ e ∈ groupMapOf contentTypes,
        g = { name := e.1, items := jsSort itemLe e.2,
              sortOrder := minSortOrder (jsSort itemLe e.2) } := by
  unfold organizeByGroups
  rw [mem_jsSort, List.mem_map]
  constructor
  · rintro ⟨e, he, rfl⟩
    rw [List.mem_map] at he
    obtain ⟨e0, he0, rfl⟩ := he
    exact ⟨e0, he0, rfl⟩
  · rintro ⟨e0, he0, rfl⟩
    exact ⟨(e0.1, jsSort itemLe e0.2), List.mem_map.mpr ⟨e0, he0, rfl⟩, rfl⟩

theorem items_sorted {contentTypes : List ContentType} {g : ContentTypeGroup}
    (hg : g ∈ organizeByGroups contentTypes) :
    g.items.Pairwise (fun a b => itemLe a b = true) := by
  obtain ⟨e, _, rfl⟩ := mem_organizeByGroups.mp hg
  exact jsSort_pairwise itemLe_trans itemLe_total e.2

theorem groups_sorted (contentTypes : List ContentType) :
    (organizeByGroups contentTypes).Pairwise (fun a b => groupLe a b = true) := by
  unfold organizeByGroups
  exact jsSort_pairwise groupLe_trans groupLe_total _

theorem insertGrouped_snd_ne_nil {m : List (Str × List ContentType)} {k : Str}
    {ct : ContentType} (hm : ∀ e ∈ m, e.2 ≠ [])
    {e : Str × List ContentType} (he : e ∈ insertGrouped m k ct) : e.2 ≠ [] := by
  induction m with
  | nil =>
    simp only [insertGrouped, List.mem_singleton] at he
    subst he
    simp
  | cons hd tl ih =>
    obtain ⟨k0, items⟩ := hd
    simp only [insertGrouped] at he
    by_cases hk : k0 = k
    · rw [if_pos hk] at he
      rcases List.mem_cons.mp he with rfl | he'
      · simp
      · exact hm _ (List.mem_cons_of_mem _ he')
    · rw [if_neg hk] at he
      rcases List.mem_cons.mp he with rfl | he'
      · exact hm _ (List.mem_cons_self _ _)
      · exact ih (fun e' he'' => hm e' (List.mem_cons_of_mem _ he'')) he'

theorem groupMapOf_snd_ne_nil {contentTypes : List ContentType}
    {e : Str × List ContentType} (he : e ∈ groupMapOf contentTypes) : e.2 ≠ [] := by
  suffices h : ∀ (cts : List ContentType) (m : List (Str × List ContentType)),
      (∀ e' ∈ m, e'.2 ≠ []) → ∀ e' ∈ cts.foldl (fun m ct => insertGrouped m (groupKey ct) ct) m,
      e'.2 ≠ [] by
    exact h contentTypes [] (by simp) e he
  intro cts
  induction cts with
  | nil => intro m hm e' he'; exact hm e' he'
  | cons c cs ih =>
    intro m hm e' he'
    exact ih _ (fun e'' he'' => insertGrouped_snd_ne_nil hm he'') e' he'

theorem insertGrouped_keys (m : List (Str × List ContentType)) (k : Str)
    (ct : ContentType) :
    (insertGrouped m k ct).map (fun e => e.1) =
      if k ∈ m.map (fun e => e.1) then m.map (fun e => e.1)
      else m.map (fun e => e.1) ++ [k] := by
  induction m with
  | nil => simp [insertGrouped]
  | cons hd tl ih =>
    obtain ⟨k0, items⟩ := hd
    simp only [insertGrouped]
    by_cases hk : k0 = k
    · subst hk
      simp
    · rw [if_neg hk]
      simp only [List.map_cons, ih, List.mem_cons]
      by_cases hmem : k ∈ tl.map (fun e => e.1)
      · rw [if_pos hmem, if_pos (Or.inr hmem)]
      · rw [if_neg hmem, if_neg (by rintro (h | h); exact hk h.symm; exact hmem h)]
        simp

theorem insertGrouped_keys_nodup {m : List (Str × List ContentType)} {k : Str}
    {ct : ContentType} (hm : (m.map (fun e => e.1)).Nodup) :
    ((insertGrouped m k ct).map (fun e => e.1)).Nodup := by
  rw [insertGrouped_keys]
  by_cases hmem : k ∈ m.map (fun e => e.1)
  · rw [if_pos hmem]; exact hm
  · rw [if_neg hmem]
    simp [List.nodup_append, hm, hmem]

theorem groupMapOf_keys_nodup (contentTypes : List ContentType) :
    ((groupMapOf contentTypes).map (fun e => e.1)).Nodup := by
  unfold groupMapOf
  suffices h : ∀ (cts : List ContentType) (m : List (Str × List ContentType)),
      (m.map (fun e => e.1)).Nodup →
      ((cts.foldl (fun m ct => insertGrouped m (groupKey ct) ct) m).map
        (fun e => e.1)).Nodup by
    exact h contentTypes [] (by simp)
  intro cts
  induction cts with
  | nil => intro m hm; exact hm
  | cons c cs ih => intro m hm; exact ih _ (insertGrouped_keys_nodup hm)

theorem organizeByGroups_names_nodup (contentTypes : List ContentType) :
    ((organizeByGroups contentTypes).map (fun g => g.name)).Nodup := by
  have hperm : List.Perm (organizeByGroups contentTypes)
      (((groupMapOf contentTypes).map (fun e => (e.1, jsSort itemLe e.2))).map
        (fun e => { name := e.1, items := e.2, sortOrder := minSortOrder e.2 })) := by
    unfold organizeByGroups
    exact jsSort_perm _ _
  have hmap := hperm.map (fun g : ContentTypeGroup => g.name)
  refine hmap.nodup_iff.mpr ?_
  rw [List.map_map, List.map_map]
  exact groupMapOf_keys_nodup contentTypes

theorem minSortOrder_foldl (xs : List ContentType) (a : Nat) :
    (xs.foldl (fun m i => min m i.sortOrder) a ≤ a ∧
      (∀ i ∈ xs, xs.foldl (fun m i => min m i.sortOrder) a ≤ i.sortOrder) ∧
      (xs.foldl (fun m i => min m i.sortOrder) a = a ∨
        xs.foldl (fun m i => min m i.sortOrder) a ∈ xs.map (fun i => i.sortOrder))) := by
  induction xs generalizing a with
  | nil => simp
  | cons x xs ih =>
    obtain ⟨h1, h2, h3⟩ := ih (min a x.sortOrder)
    refine ⟨le_trans h1 (min_le_left _ _), ?_, ?_⟩
    · intro i hi
      rcases List.mem_cons.mp hi with rfl | hi'
      · exact le_trans h1 (min_le_right _ _)
      · exact h2 i hi'
    · rcases h3 with h3 | h3
      · rcases Nat.le_total a x.sortOrder with hax | hax
        · simp only [List.foldl_cons]
          rw [h3, min_eq_left hax]
          exact Or.inl rfl
        · simp only [List.foldl_cons]
          rw [h3, min_eq_right hax]
          exact Or.inr (by simp)
      · exact Or.inr (List.mem_cons_of_mem _ h3)

theorem minSortOrder_le {xs : List ContentType} {i : ContentType} (hi : i ∈ xs) :
    minSortOrder xs ≤ i.sortOrder := by
  cases xs with
  | nil => cases hi
  | cons x tl =>
    obtain ⟨h1, h2, _⟩ := minSortOrder_foldl tl x.sortOrder
    rcases List.mem_cons.mp hi with rfl | hi'
    · exact h1
    · exact h2 i hi'

theorem minSortOrder_mem {xs : List ContentType} (hxs : xs ≠ []) :
    minSortOrder xs ∈ xs.map (fun i => i.sortOrder) := by
  cases xs with
  | nil => exact absurd rfl hxs
  | cons x tl =>
    obtain ⟨_, _, h3⟩ := minSortOrder_foldl tl x.sortOrder
    rcases h3 with h3 | h3
    · simp [minSortOrder, h3]
    · exact List.mem_cons_of_mem _ (by simpa [minSortOrder] using h3)

theorem organizeByGroups_items_ne_nil {contentTypes : List ContentType}
    {g : ContentTypeGroup} (hg : g ∈ organizeByGroups contentTypes) :
    g.items ≠ [] := by
  obtain ⟨e, he, rfl⟩ := mem_organizeByGroups.mp hg
  have hnil := groupMapOf_snd_ne_nil he
  intro h
  have h' : jsSort itemLe e.2 = [] := h
  have : e.2.length = 0 := by
    have hlen := length_jsSort itemLe e.2
    rw [h'] at hlen
    simpa using hlen.symm
  exact hnil (List.length_eq_zero.mp this)

theorem organizeByGroups_sortOrder_eq_min {contentTypes : List ContentType}
    {g : ContentTypeGroup} (hg : g ∈ organizeByGroups contentTypes) :
    g.sortOrder ∈ g.items.map (fun i => i.sortOrder) ∧
      ∀ i ∈ g.items, g.sortOrder ≤ i.sortOrder := by
  obtain ⟨e, he, rfl⟩ := mem_organizeByGroups.mp hg
  have hne : jsSort itemLe e.2 ≠ [] := by
    have hnil := groupMapOf_snd_ne_nil he
    intro h
    have : e.2.length = 0 := by
      have hlen := length_jsSort itemLe e.2
      rw [h] at hlen
      simpa using hlen.symm
    exact hnil (List.length_eq_zero.mp this)
  exact ⟨minSortOrder_mem hne, fun i hi => minSortOrder_le hi⟩

-- ### Hint-pattern parsing lemmas

theorem takeWhile_all_append {p : Char → Bool} {ds : Str} (h : ds.all p = true)
    {c : Char} (hc : p c = false) (t : Str) :
    (ds ++ c :: t).takeWhile p = ds := by
  induction ds with
  | nil => simp [List.takeWhile, hc]
  | cons d dtl ih =>
    simp only [List.all_cons, Bool.and_eq_true] at h
    simp [List.takeWhile, h.1, ih h.2]

theorem dropWhile_all_append {p : Char → Bool} {ws rest : Str} (h : ws.all p = true)
    (hrest : rest = [] ∨ ∃ c t, rest = c :: t ∧ p c = false) :
    (ws ++ rest).dropWhile p = rest := by
  induction ws with
  | nil =>
    rcases hrest with rfl | ⟨c, t, rfl, hc⟩
    · rfl
    · simp [List.dropWhile, hc]
  | cons w wtl ih =>
    simp only [List.all_cons, Bool.and_eq_true] at h
    simp [List.dropWhile, h.1, ih h.2]

theorem headNotWs_cases {rest : Str} (h : headNotWs rest = true) :
    rest = [] ∨ ∃ c t, rest = c :: t ∧ isJsWs c = false := by
  cases rest with
  | nil => exact Or.inl rfl
  | cons c t =>
    refine Or.inr ⟨c, t, rfl, ?_⟩
    simpa [headNotWs] using h

theorem hintMatch_cons (c : Char) (rest : Str) :
    hintMatch (c :: rest) =
      (if c = '[' then
        if rest.takeWhile isDigitCh ≠ [] ∧
            (rest.drop (rest.takeWhile isDigitCh).length).head? = some ']' then
          some (digitsToNat (rest.takeWhile isDigitCh),
            (rest.drop (rest.takeWhile isDigitCh).length).tail.dropWhile isJsWs)
        else none
      else none) := rfl

theorem drop_length_takeWhile (p : Char → Bool) (l : Str) :
    l.drop (l.takeWhile p).length = l.dropWhile p := by
  induction l with
  | nil => rfl
  | cons c cs ih =>
    by_cases hc : p c
    · simp [List.takeWhile, List.dropWhile, hc, ih]
    · simp [List.takeWhile, List.dropWhile, hc]

theorem hintMatch_build {ds ws rest : Str} (hne : ds ≠ [])
    (hall : ds.all isDigitCh = true) (hws : ws.all isJsWs = true)
    (hrest : headNotWs rest = true) :
    hintMatch ('[' :: (ds ++ ']' :: (ws ++ rest))) = some (digitsToNat ds, rest) := by
  have htake : (ds ++ ']' :: (ws ++ rest)).takeWhile isDigitCh = ds :=
    takeWhile_all_append hall (by decide) _
  have hdrop : (ds ++ ']' :: (ws ++ rest)).drop ds.length = ']' :: (ws ++ rest) :=
    List.drop_left ds _
  rw [hintMatch_cons, if_pos rfl, htake, hdrop]
  rw [if_pos ⟨hne, rfl⟩]
  simp only [List.tail_cons]
  rw [dropWhile_all_append hws (headNotWs_cases hrest)]

theorem hintMatch_decomp {s : Str} {n : Nat} {c : Str}
    (h : hintMatch s = some (n, c)) :
    ∃ ds t, ds ≠ [] ∧ ds.all isDigitCh = true ∧ s = '[' :: (ds ++ ']' :: t) ∧
      n = digitsToNat ds ∧ c = t.dropWhile isJsWs := by
  cases s with
  | nil => simp [hintMatch] at h
  | cons c0 rest =>
    rw [hintMatch_cons] at h
    by_cases hc0 : c0 = '['
    · subst hc0
      rw [if_pos rfl] at h
      by_cases hcond : rest.takeWhile isDigitCh ≠ [] ∧
          (rest.drop (rest.takeWhile isDigitCh).length).head? = some ']'
      · rw [if_pos hcond] at h
        obtain ⟨hds, hhead⟩ := hcond
        rcases hdrop : rest.drop (rest.takeWhile isDigitCh).length with _ | ⟨c2, tail⟩
        · rw [hdrop] at hhead; cases hhead
        · rw [hdrop] at hhead h
          have hc2 : c2 = ']' := by injection hhead
          subst hc2
          injection h with h''
          injection h'' with h1 h2
          have hrest_eq : rest = rest.takeWhile isDigitCh ++ ']' :: tail := by
            conv_lhs => rw [← List.takeWhile_append_dropWhile isDigitCh rest]
            rw [← drop_length_takeWhile isDigitCh rest, hdrop]
          refine ⟨rest.takeWhile isDigitCh, tail, hds, ?_, ?_, h1.symm, ?_⟩
          · rw [List.all_eq_true]
            intro x hx
            exact List.mem_takeWhile_imp hx
          · exact congrArg (fun l => '[' :: l) hrest_eq
          · rw [← h2]
            simp
      · rw [if_neg hcond] at h; cases h
    · rw [if_neg hc0] at h
      cases h

theorem hintMatch_eq_none {s : Str}
    (h : ∀ ds t, ds ≠ [] → ds.all isDigitCh = true → s ≠ '[' :: (ds ++ ']' :: t)) :
    hintMatch s = none := by
  rcases hm : hintMatch s with _ | ⟨n, c⟩
  · rfl
  · obtain ⟨ds, t, hne, hall, hs, _, _⟩ := hintMatch_decomp hm
    exact absurd hs (h ds t hne hall)

-- ### Delimiter/group lemmas

theorem splitFirstSeg_of_not_occursIn {d s : Str} (h : occursIn d s = false) :
    splitFirstSeg d s = s := by
  induction s with
  | nil => rfl
  | cons c cs ih =>
    rw [splitFirstSeg, if_neg (by rw [not_leadsWith_of_not_occursIn h]; simp)]
    rw [ih (occursIn_tail h)]

theorem getContentTypeGroup_of_not_occursIn {d s : Str} (h : occursIn d s = false) :
    getContentTypeGroup d s = trimStr s := by
  unfold getContentTypeGroup
  rw [if_neg (ne_nil_of_not_occursIn h), splitFirstSeg_of_not_occursIn h]

theorem not_leadsWith_of_not_occursIn_delim {g d s : Str}
    (h : occursIn d s = false) : leadsWith (g ++ d) s = false := by
  by_contra hcon
  have hlead : leadsWith (g ++ d) s = true := by
    cases hle : leadsWith (g ++ d) s
    · exact absurd hle hcon
    · rfl
  obtain ⟨t, rfl⟩ := (leadsWith_iff _ _).mp hlead
  rw [List.append_assoc] at h
  rw [show g ++ (d ++ t) = g ++ d ++ t by rw [List.append_assoc], occursIn_append] at h
  cases h

-- ### formatContentTypes membership

theorem formatOne_mem_formatContentTypes {delimiter : Str} {data : List RawCT}
    {r : RawCT} (hr : r ∈ data) (hk : keepNS r = true) :
    formatOne delimiter (data.length + 1000) r ∈ formatContentTypes delimiter data := by
  unfold formatContentTypes
  exact List.mem_map_of_mem _ (List.mem_filter.mpr ⟨hr, hk⟩)

/-- In a Pairwise-ordered list split as `pre ++ u :: post`, `u` relates to
every element of `post`. -/
theorem pairwise_rel_of_middle {α : Type} {R : α → α → Prop} {l pre post : List α}
    {u : α} (hp : l.Pairwise R) (hl : l = pre ++ u :: post) :
    ∀ x ∈ post, R u x := by
  subst hl
  have h2 := (List.pairwise_append.mp hp).2.1
  exact fun x hx => List.rel_of_pairwise_cons h2 hx

-- ### Claim C4: ordering-hint extraction

/-- C4, counterexample.  The claim says a display name must have the
bracketed integer FOLLOWED BY WHITESPACE to be normalized, and that every
other name is left unchanged with the sentinel sortOrder.  `"[5]rest"`
contains no whitespace at all (so it does not match the claimed pattern),
yet `extractSortOrder` strips the hint anyway: the source regex is
`^\[(\d+)\]\s*`, whose `\s*` makes the whitespace optional. -/
theorem claim_C4_counterexample :
    (toStr "[5]rest").all (fun c => !isJsWs c) = true ∧
    extractSortOrder (toStr "[5]rest") 999 = (5, toStr "rest") ∧
    extractSortOrder (toStr "[5]rest") 999 ≠ (999, toStr "[5]rest") := by
  decide

/-- C4, amended.  For every display name of the form `"[<digits>]"`
followed by OPTIONAL whitespace and then a remainder (that does not itself
start with whitespace), normalization yields the bracketed integer as
sortOrder and that remainder as the display name; every display name not
beginning with a complete `"[<digits>]"` bracket yields the given default
sortOrder and is left unchanged. -/
theorem claim_C4 :
    (∀ (d : Nat) (ds ws rest : Str), ds ≠ [] → ds.all isDigitCh = true →
      ws.all isJsWs = true → headNotWs rest = true →
      extractSortOrder ('[' :: (ds ++ ']' :: (ws ++ rest))) d =
        (digitsToNat ds, rest)) ∧
    (∀ (d : Nat) (s : Str),
      (∀ ds t, ds ≠ [] → ds.all isDigitCh = true → s ≠ '[' :: (ds ++ ']' :: t)) →
      extractSortOrder s d = (d, s)) := by
  constructor
  · intro d ds ws rest hne hall hws hrest
    unfold extractSortOrder
    rw [hintMatch_build hne hall hws hrest]
  · intro d s h
    unfold extractSortOrder
    rw [hintMatch_eq_none h]

/-- Witness for C4 at concrete inputs. -/
theorem claim_C4_witness :
    extractSortOrder ('[' :: (toStr "12" ++ ']' :: (toStr " " ++ toStr "Foo"))) 999 =
      (digitsToNat (toStr "12"), toStr "Foo") ∧
    extractSortOrder (toStr "Bar") 999 = (999, toStr "Bar") := by
  constructor
  · exact claim_C4.1 999 (toStr "12") (toStr " ") (toStr "Foo")
      (by decide) (by decide) (by decide) (by decide)
  · refine claim_C4.2 999 (toStr "Bar") ?_
    intro ds t _ _ heq
    injection heq with h1 _
    exact absurd h1 (by decide)

-- ### Claim C8: the sentinel counts records dropped by the namespace filter

/-- C8, confirmed.  The sentinel sortOrder given to an unhinted retained
record equals the length of the raw record list BEFORE the
`api::`/`plugin::` namespace filter, plus 1000 (`formatContentTypes`
computes `defaultSortOrder` from `data.data.length` and only then filters),
so excluded records still count toward the sentinel. -/
theorem claim_C8 (delimiter : Str) (data : List RawCT) (r : RawCT)
    (hr : r ∈ data) (hk : keepNS r = true)
    (hnone : hintMatch (rawDisplayName r) = none) :
    formatOne delimiter (data.length + 1000) r ∈ formatContentTypes delimiter data ∧
    (formatOne delimiter (data.length + 1000) r).uid = r.uid ∧
    (formatOne delimiter (data.length + 1000) r).sortOrder = data.length + 1000 := by
  refine ⟨formatOne_mem_formatContentTypes hr hk, rfl, ?_⟩
  have hso : (formatOne delimiter (data.length + 1000) r).sortOrder =
      (extractSortOrder (rawDisplayName r) (data.length + 1000)).1 := rfl
  rw [hso]
  unfold extractSortOrder
  rw [hnone]

/-- Witness for C8: a two-record listing where one record is outside the
retained namespaces; the surviving unhinted record still gets
sentinel `2 + 1000`. -/
theorem claim_C8_witness :
    formatOne (toStr " | ") ([exRawAdmin, exRawUnhinted].length + 1000) exRawUnhinted ∈
      formatContentTypes (toStr " | ") [exRawAdmin, exRawUnhinted] ∧
    (formatOne (toStr " | ") ([exRawAdmin, exRawUnhinted].length + 1000)
      exRawUnhinted).uid = exRawUnhinted.uid ∧
    (formatOne (toStr " | ") ([exRawAdmin, exRawUnhinted].length + 1000)
      exRawUnhinted).sortOrder = [exRawAdmin, exRawUnhinted].length + 1000 :=
  claim_C8 (toStr " | ") [exRawAdmin, exRawUnhinted] exRawUnhinted
    (by decide) (by decide) (by decide)

-- ### Claim C9: falsy config fields fall back to defaults

theorem jsOrStr_ne_nil {v : Option Str} {dflt : Str} (h : dflt ≠ []) :
    jsOrStr v dflt ≠ [] := by
  cases v with
  | none => exact h
  | some s =>
    show (if s = [] then dflt else s) ≠ []
    by_cases hs : s = []
    · rw [if_pos hs]; exact h
    · rw [if_neg hs]; exact hs

/-- C9, confirmed.  A config response field that is present but the empty
string is treated exactly like an absent field (the `||` fallback), and at
the public interface neither the resolved delimiter nor the resolved
template can ever be the empty string. -/
theorem claim_C9 (envDelimiter envTemplate : Option Str) (c : ConfigResponse) :
    (c.delimiter = some [] →
      getPluginConfig envDelimiter envTemplate (some c) =
        getPluginConfig envDelimiter envTemplate
          (some { c with delimiter := none })) ∧
    (c.template = some [] →
      getPluginConfig envDelimiter envTemplate (some c) =
        getPluginConfig envDelimiter envTemplate
          (some { c with template := none })) ∧
    (∀ resp : Option ConfigResponse,
      (getPluginConfig envDelimiter envTemplate resp).1 ≠ [] ∧
      (getPluginConfig envDelimiter envTemplate resp).2 ≠ []) := by
  refine ⟨?_, ?_, ?_⟩
  · intro hd
    simp [getPluginConfig, hd, jsOrStr]
  · intro ht
    simp [getPluginConfig, ht, jsOrStr]
  · intro resp
    have hdflt : defaultDelimiter ≠ [] := by decide
    have htmpl : defaultTemplate ≠ [] := by decide
    cases resp with
    | none => exact ⟨jsOrStr_ne_nil hdflt, jsOrStr_ne_nil htmpl⟩
    | some c0 =>
      exact ⟨jsOrStr_ne_nil (jsOrStr_ne_nil hdflt),
        jsOrStr_ne_nil (jsOrStr_ne_nil htmpl)⟩

/-- Witness for C9 at concrete inputs. -/
theorem claim_C9_witness :
    getPluginConfig (some (toStr "::")) none
        (some { delimiter := some [], template := some (toStr "x") }) =
      getPluginConfig (some (toStr "::")) none
        (some { delimiter := none, template := some (toStr "x") }) ∧
    (getPluginConfig none none (some { delimiter := some [], template := some [] })).1 ≠
      [] :=
  ⟨(claim_C9 (some (toStr "::")) none
      { delimiter := some [], template := some (toStr "x") }).1 rfl,
    ((claim_C9 none none { delimiter := some [], template := some [] }).2.2
      (some { delimiter := some [], template := some [] })).1⟩

-- ### Claim C10: every emitted group is nonempty

/-- C10, confirmed.  Groups are created only when an item is inserted into
them, so every group produced by `organizeByGroups` has a nonempty item
list, and the renderer's `if (group.items.length === 0) return null` skip
branch is unreachable on engine output. -/
theorem claim_C10 (contentTypes : List ContentType) (g : ContentTypeGroup)
    (hg : g ∈ organizeByGroups contentTypes) :
    g.items ≠ [] ∧ officialSectionItems g = some (allTypes g) := by
  refine ⟨organizeByGroups_items_ne_nil hg, ?_⟩
  unfold officialSectionItems
  rw [if_neg (fun h =>
    (organizeByGroups_items_ne_nil hg) (List.length_eq_zero.mp h))]

/-- Witness for C10 at a concrete one-item listing. -/
theorem claim_C10_witness :
    exGroup1.items ≠ [] ∧ officialSectionItems exGroup1 = some (allTypes exGroup1) :=
  claim_C10 [exCtA] exGroup1 (by decide)

-- ### Claim C1: the sentinel versus explicit hints

/-- C1, counterexample.  The claim says the sentinel
(total-item-count + 1000) is greater than ANY explicit hint present in the
listing, so unhinted items always sort after hinted ones.  With two
records `"[2000] A | X"` and `"A | Y"` the sentinel is `2 + 1000 = 1002`,
which is NOT greater than the explicit hint 2000, and in the organized
output of group `"A"` the unhinted item (`api::b.b`) sorts BEFORE the
hinted one (`api::a.a`). -/
theorem claim_C1_counterexample :
    (formatContentTypes (toStr " | ") [exRawHinted, exRawUnhinted]).map
        (fun ct => (ct.uid, ct.sortOrder)) =
      [(toStr "api::a.a", 2000), (toStr "api::b.b", 1002)] ∧
    (1002 : Nat) < 2000 ∧
    (organizeByGroups (formatContentTypes (toStr " | ") [exRawHinted, exRawUnhinted])).map
        (fun g => g.items.map (fun i => i.uid)) =
      [[toStr "api::b.b", toStr "api::a.a"]] := by
  decide

/-- C1, amended.  Every retained record whose display name lacks a hint
gets the sentinel sortOrder `count + 1000`; this exceeds any explicit hint
whose value is below `count + 1000` (in particular any hint below 1000),
and within a group no item whose sortOrder is below the sentinel ever
appears after a sentinel-valued (unhinted) item — but a hint of at least
`count + 1000` can sort at or after unhinted items, so the "regardless of
list size" guarantee holds only for such bounded hints. -/
theorem claim_C1 :
    (∀ (delimiter : Str) (data : List RawCT) (r : RawCT) (n : Nat) (clean : Str),
      r ∈ data → keepNS r = true →
      hintMatch (rawDisplayName r) = some (n, clean) → n < data.length + 1000 →
      formatOne delimiter (data.length + 1000) r ∈ formatContentTypes delimiter data ∧
      (formatOne delimiter (data.length + 1000) r).uid = r.uid ∧
      (formatOne delimiter (data.length + 1000) r).sortOrder = n ∧
      (formatOne delimiter (data.length + 1000) r).sortOrder < data.length + 1000) ∧
    (∀ (delimiter : Str) (data : List RawCT) (g : ContentTypeGroup)
      (pre post : List ContentType) (u : ContentType),
      g ∈ organizeByGroups (formatContentTypes delimiter data) →
      g.items = pre ++ u :: post → u.sortOrder = data.length + 1000 →
      ∀ x ∈ post, data.length + 1000 ≤ x.sortOrder) := by
  constructor
  · intro delimiter data r n clean hr hk hsome hn
    have hso : (formatOne delimiter (data.length + 1000) r).sortOrder =
        (extractSortOrder (rawDisplayName r) (data.length + 1000)).1 := rfl
    have hext : extractSortOrder (rawDisplayName r) (data.length + 1000) = (n, clean) := by
      unfold extractSortOrder
      rw [hsome]
    refine ⟨formatOne_mem_formatContentTypes hr hk, rfl, ?_, ?_⟩
    · rw [hso, hext]
    · rw [hso, hext]
      exact hn
  · intro delimiter data g pre post u hg hsplit hu x hx
    have hsorted := items_sorted hg
    have hle : itemLe u x = true := pairwise_rel_of_middle hsorted hsplit x hx
    rcases (itemLe_iff u x).mp hle with h | ⟨h, _⟩
    · omega
    · omega

/-- Witness for C1: a three-record listing with hint 2 (< 3 + 1000); the
hinted item keeps sortOrder 2 and everything after the first unhinted item
in group `"A"` has sortOrder ≥ 1003. -/
theorem claim_C1_witness :
    (formatOne (toStr " | ") (exDataC1.length + 1000) exRawHintedSmall ∈
        formatContentTypes (toStr " | ") exDataC1 ∧
      (formatOne (toStr " | ") (exDataC1.length + 1000) exRawHintedSmall).uid =
        exRawHintedSmall.uid ∧
      (formatOne (toStr " | ") (exDataC1.length + 1000) exRawHintedSmall).sortOrder = 2 ∧
      (formatOne (toStr " | ") (exDataC1.length + 1000) exRawHintedSmall).sortOrder <
        exDataC1.length + 1000) ∧
    (∀ x ∈ [exCtZ], exDataC1.length + 1000 ≤ x.sortOrder) :=
  ⟨claim_C1.1 (toStr " | ") exDataC1 exRawHintedSmall 2 (toStr "A | X")
      (by decide) (by decide) (by decide) (by decide),
    claim_C1.2 (toStr " | ") exDataC1 exGroupC1 [exCtX] [exCtZ] exCtY
      (by decide) (by decide) (by decide)⟩

-- ### Claim C5: delimiter-free names group under their own name

/-- C5, counterexample.  The claim says a working display name with no
delimiter occurrence gets a group EQUAL TO its entire display name.  The
source trims the split segment, so for the name `" Settings"` (leading
space, no `" | "` occurrence) the group is `"Settings"`, not `" Settings"`,
while the display name stays `" Settings"`. -/
theorem claim_C5_counterexample :
    occursIn (toStr " | ") (toStr " Settings") = false ∧
    (formatContentTypes (toStr " | ") [exRawSpace]).map
        (fun ct => (ct.group, ct.displayName)) =
      [(toStr "Settings", toStr " Settings")] ∧
    toStr "Settings" ≠ toStr " Settings" := by
  decide

/-- C5, amended.  For every retained record whose working (hint-stripped)
display name contains no occurrence of the delimiter, the descriptor's
group is the TRIMMED entire display name (equal to the entire display name
whenever it has no leading/trailing whitespace) and its displayName is
left unchanged, forming a single-item group keyed by its own (trimmed)
name. -/
theorem claim_C5 (delimiter : Str) (data : List RawCT) (r : RawCT)
    (hr : r ∈ data) (hk : keepNS r = true)
    (hno : occursIn delimiter
      (extractSortOrder (rawDisplayName r) (data.length + 1000)).2 = false) :
    formatOne delimiter (data.length + 1000) r ∈ formatContentTypes delimiter data ∧
    (formatOne delimiter (data.length + 1000) r).uid = r.uid ∧
    (formatOne delimiter (data.length + 1000) r).group =
      trimStr (extractSortOrder (rawDisplayName r) (data.length + 1000)).2 ∧
    (formatOne delimiter (data.length + 1000) r).displayName =
      (extractSortOrder (rawDisplayName r) (data.length + 1000)).2 := by
  refine ⟨formatOne_mem_formatContentTypes hr hk, rfl, ?_, ?_⟩
  · have hgroup : (formatOne delimiter (data.length + 1000) r).group =
        getContentTypeGroup delimiter
          (extractSortOrder (rawDisplayName r) (data.length + 1000)).2 := rfl
    rw [hgroup, getContentTypeGroup_of_not_occursIn hno]
  · have hdisp : (formatOne delimiter (data.length + 1000) r).displayName =
        (if leadsWith
            (getContentTypeGroup delimiter
              (extractSortOrder (rawDisplayName r) (data.length + 1000)).2 ++ delimiter)
            (extractSortOrder (rawDisplayName r) (data.length + 1000)).2 = true
         then ((extractSortOrder (rawDisplayName r) (data.length + 1000)).2).drop
            ((getContentTypeGroup delimiter
              (extractSortOrder (rawDisplayName r) (data.length + 1000)).2 ++
              delimiter)).length
         else (extractSortOrder (rawDisplayName r) (data.length + 1000)).2) := rfl
    rw [hdisp, not_leadsWith_of_not_occursIn_delim hno]
    simp

/-- Witness for C5 at a concrete delimiter-free record. -/
theorem claim_C5_witness :
    formatOne (toStr " | ") ([exRawPlain].length + 1000) exRawPlain ∈
      formatContentTypes (toStr " | ") [exRawPlain] ∧
    (formatOne (toStr " | ") ([exRawPlain].length + 1000) exRawPlain).uid =
      exRawPlain.uid ∧
    (formatOne (toStr " | ") ([exRawPlain].length + 1000) exRawPlain).group =
      trimStr (extractSortOrder (rawDisplayName exRawPlain)
        ([exRawPlain].length + 1000)).2 ∧
    (formatOne (toStr " | ") ([exRawPlain].length + 1000) exRawPlain).displayName =
      (extractSortOrder (rawDisplayName exRawPlain) ([exRawPlain].length + 1000)).2 :=
  claim_C5 (toStr " | ") [exRawPlain] exRawPlain (by decide) (by decide) (by decide)

-- ### Claim C6: fail-open permission filtering

/-- C6, confirmed.  Grouping with an empty permission set equals grouping
with any permission set that grants read capability on every descriptor:
an empty set takes the fail-open branch and shows everything, and an
all-granting set filters nothing away. -/
theorem claim_C6 (contentTypes : List ContentType) (permissions : List Permission)
    (hall : ∀ ct ∈ contentTypes, allowedCT permissions ct = true) :
    buildGroups permissions contentTypes = buildGroups [] contentTypes := by
  unfold buildGroups
  refine congrArg organizeByGroups ?_
  unfold filterByPermissions
  cases permissions with
  | nil => rfl
  | cons p ps =>
    rw [if_pos (by simp), if_neg (by simp)]
    exact List.filter_eq_self.mpr hall

/-- Witness for C6: one content type, and a permission set granting
content-manager read on exactly its uid. -/
theorem claim_C6_witness :
    buildGroups [exPerm] [exCtA] = buildGroups [] [exCtA] :=
  claim_C6 [exCtA] [exPerm] (by decide)

-- ### Claim C7: mount idempotence under redundant reconciliation

/-- C7, confirmed.  Running the mount operation redundantly — from the
mutation observer, the 100ms interval backstop, or both in any
interleaving — never creates a second `#stack-nav-container`: starting
from a document with at most one container there is never more than one;
when a container exists, `processNavigation` never replaces or duplicates
the node (node identities are unchanged); and it re-renders into the
existing node only when the node has lost all its children, otherwise it
is a no-op (the interval tick likewise). -/
theorem processNavigation_of_nil {s : NavDomState} (h : s.containers = []) :
    processNavigation s =
      { containers := [{ nodeId := s.nextId, childCount := 1 }],
        nextId := s.nextId + 1 } := by
  unfold processNavigation
  rw [h]

theorem processNavigation_of_cons {s : NavDomState} {c : StackNavContainer}
    {rest : List StackNavContainer} (h : s.containers = c :: rest) :
    processNavigation s =
      (if c.childCount = 0 then
        { containers := { nodeId := c.nodeId, childCount := 1 } :: rest,
          nextId := s.nextId }
      else s) := by
  unfold processNavigation
  rw [h]

theorem intervalStep_of_ne_nil {s : NavDomState} (h : s.containers ≠ []) :
    intervalStep s = s := by
  unfold intervalStep
  rw [if_neg (fun hc => h (List.isEmpty_iff.mp hc))]

theorem claim_C7 :
    (∀ (steps : List Bool) (s : NavDomState), s.containers.length ≤ 1 →
      (runSteps steps s).containers.length ≤ 1) ∧
    (∀ (s : NavDomState) (c : StackNavContainer) (rest : List StackNavContainer),
      s.containers = c :: rest →
      (processNavigation s).containers.map (fun x => x.nodeId) =
        (c :: rest).map (fun x => x.nodeId)) ∧
    (∀ (s : NavDomState) (c : StackNavContainer) (rest : List StackNavContainer),
      s.containers = c :: rest → c.childCount ≠ 0 → processNavigation s = s) ∧
    (∀ s : NavDomState, s.containers ≠ [] → intervalStep s = s) := by
  have hproc : ∀ s : NavDomState, s.containers.length ≤ 1 →
      (processNavigation s).containers.length ≤ 1 := by
    intro s hs
    rcases h : s.containers with _ | ⟨c, rest⟩
    · rw [processNavigation_of_nil h]
      simp
    · rw [h] at hs
      rw [processNavigation_of_cons h]
      by_cases hc : c.childCount = 0
      · rw [if_pos hc]
        simpa using hs
      · rw [if_neg hc, h]
        exact hs
  have hintl : ∀ s : NavDomState, s.containers.length ≤ 1 →
      (intervalStep s).containers.length ≤ 1 := by
    intro s hs
    by_cases h : s.containers = []
    · unfold intervalStep
      rw [if_pos (List.isEmpty_iff.mpr h)]
      exact hproc s hs
    · rw [intervalStep_of_ne_nil h]
      exact hs
  refine ⟨?_, ?_, ?_, ?_⟩
  · intro steps
    induction steps with
    | nil => intro s hs; exact hs
    | cons b bs ih =>
      intro s hs
      by_cases hb : b = true
      · subst hb
        show (runSteps bs (processNavigation s)).containers.length ≤ 1
        exact ih _ (hproc s hs)
      · rw [Bool.not_eq_true] at hb
        subst hb
        show (runSteps bs (intervalStep s)).containers.length ≤ 1
        exact ih _ (hintl s hs)
  · intro s c rest h
    rw [processNavigation_of_cons h]
    by_cases hc : c.childCount = 0
    · rw [if_pos hc]
      simp
    · rw [if_neg hc, h]
  · intro s c rest h hc
    rw [processNavigation_of_cons h, if_neg hc]
  · intro s h
    exact intervalStep_of_ne_nil h

/-- Witness for C7 at concrete document states. -/
theorem claim_C7_witness :
    (runSteps [true, false, true] { containers := [], nextId := 0 }).containers.length ≤
      1 ∧
    (processNavigation { containers := [{ nodeId := 7, childCount := 0 }], nextId := 9 }
      ).containers.map (fun x => x.nodeId) = [7] ∧
    processNavigation { containers := [{ nodeId := 7, childCount := 3 }], nextId := 9 } =
      { containers := [{ nodeId := 7, childCount := 3 }], nextId := 9 } ∧
    intervalStep { containers := [{ nodeId := 7, childCount := 3 }], nextId := 9 } =
      { containers := [{ nodeId := 7, childCount := 3 }], nextId := 9 } :=
  ⟨claim_C7.1 [true, false, true] { containers := [], nextId := 0 } (by decide),
    claim_C7.2.1 { containers := [{ nodeId := 7, childCount := 0 }], nextId := 9 }
      { nodeId := 7, childCount := 0 } [] rfl,
    claim_C7.2.2.1 { containers := [{ nodeId := 7, childCount := 3 }], nextId := 9 }
      { nodeId := 7, childCount := 3 } [] rfl (by decide),
    claim_C7.2.2.2 { containers := [{ nodeId := 7, childCount := 3 }], nextId := 9 }
      (by decide)⟩

-- ### Claim C2: renderer kind partition preserves engine order

/-- C2, confirmed.  For every group handed to a renderer, the list the
renderer consumes (`allTypes`) is all collection-kind items first, then all
single-kind items; each kind partition is a sublist of the group's item
list (so it preserves the engine's order) and is itself ordered by
sortOrder ascending with ties broken by the lexical displayName
comparison, as is the group's item list. -/
theorem claim_C2 (contentTypes : List ContentType) (g : ContentTypeGroup)
    (hg : g ∈ organizeByGroups contentTypes) :
    allTypes g = collectionItems g ++ singleItems g ∧
    (∀ x ∈ collectionItems g, x.kind = CTKind.collectionType) ∧
    (∀ x ∈ singleItems g, x.kind = CTKind.singleType) ∧
    List.Sublist (collectionItems g) g.items ∧
    List.Sublist (singleItems g) g.items ∧
    g.items.Pairwise itemOrd ∧
    (collectionItems g).Pairwise itemOrd ∧
    (singleItems g).Pairwise itemOrd := by
  have hOrd : g.items.Pairwise itemOrd :=
    (items_sorted hg).imp (fun h => (itemLe_iff _ _).mp h)
  refine ⟨rfl, ?_, ?_, List.filter_sublist _, List.filter_sublist _, hOrd,
    hOrd.filter _, hOrd.filter _⟩
  · intro x hx
    have h2 := (List.mem_filter.mp hx).2
    simpa using h2
  · intro x hx
    have h2 := (List.mem_filter.mp hx).2
    simpa using h2

/-- Witness for C2 at a concrete mixed-kind group. -/
theorem claim_C2_witness :
    allTypes exGroupAB = collectionItems exGroupAB ++ singleItems exGroupAB ∧
    (∀ x ∈ collectionItems exGroupAB, x.kind = CTKind.collectionType) ∧
    (∀ x ∈ singleItems exGroupAB, x.kind = CTKind.singleType) ∧
    List.Sublist (collectionItems exGroupAB) exGroupAB.items ∧
    List.Sublist (singleItems exGroupAB) exGroupAB.items ∧
    exGroupAB.items.Pairwise itemOrd ∧
    (collectionItems exGroupAB).Pairwise itemOrd ∧
    (singleItems exGroupAB).Pairwise itemOrd :=
  claim_C2 [exCtA, exCtB] exGroupAB (by decide)

-- ### Claim C3: group ordering with the "General" pin

/-- C3, confirmed.  In the output of `organizeByGroups`, a group named
"General" is first whenever it exists, regardless of its computed
sortOrder; the remaining groups are ordered by group sortOrder ascending
with ties broken lexically by name; and each group's sortOrder is the
minimum sortOrder among its items. -/
theorem claim_C3 (contentTypes : List ContentType) :
    (∀ g ∈ organizeByGroups contentTypes, g.name = generalName →
      (organizeByGroups contentTypes).head? = some g) ∧
    ((organizeByGroups contentTypes).filter
        (fun g => !(g.name == generalName))).Pairwise groupOrd ∧
    (∀ g ∈ organizeByGroups contentTypes,
      g.sortOrder ∈ g.items.map (fun i => i.sortOrder) ∧
      ∀ i ∈ g.items, g.sortOrder ≤ i.sortOrder) := by
  refine ⟨?_, ?_, fun g hg => organizeByGroups_sortOrder_eq_min hg⟩
  · intro g hg hgen
    rcases hout : organizeByGroups contentTypes with _ | ⟨x, rest⟩
    · rw [hout] at hg; cases hg
    · rw [hout] at hg
      rcases List.mem_cons.mp hg with rfl | hgrest
      · rfl
      · exfalso
        have hs := groups_sorted contentTypes
        rw [hout] at hs
        have hle : groupLe x g = true := List.rel_of_pairwise_cons hs hgrest
        have hxgen : x.name = generalName := general_of_groupLe hle hgen
        have hnd := organizeByGroups_names_nodup contentTypes
        rw [hout, List.map_cons] at hnd
        have hmem : g.name ∈ rest.map (fun g0 => g0.name) :=
          List.mem_map_of_mem _ hgrest
        have hne := (List.nodup_cons.mp hnd).1
        rw [hxgen] at hne
        rw [hgen] at hmem
        exact absurd hmem hne
  · have hf : ((organizeByGroups contentTypes).filter
        (fun g => !(g.name == generalName))).Pairwise (fun a b => groupLe a b = true) :=
      (groups_sorted contentTypes).filter _
    refine List.Pairwise.imp_of_mem ?_ hf
    intro a b ha hb hle
    have hane : a.name ≠ generalName := by
      simpa using (List.mem_filter.mp ha).2
    have hbne : b.name ≠ generalName := by
      simpa using (List.mem_filter.mp hb).2
    exact (groupLe_iff_of_ne hane hbne).mp hle

/-- Witness for C3 at a concrete listing containing a "General" group with
a large computed sortOrder. -/
theorem claim_C3_witness :
    (organizeByGroups [exCtA, exCtGen]).head? = some exGroupGen ∧
    ((organizeByGroups [exCtA, exCtGen]).filter
        (fun g => !(g.name == generalName))).Pairwise groupOrd ∧
    (exGroupGen.sortOrder ∈ exGroupGen.items.map (fun i => i.sortOrder) ∧
      ∀ i ∈ exGroupGen.items, exGroupGen.sortOrder ≤ i.sortOrder) :=
  ⟨(claim_C3 [exCtA, exCtGen]).1 exGroupGen (by decide) (by decide),
    (claim_C3 [exCtA, exCtGen]).2.1,
    (claim_C3 [exCtA, exCtGen]).2.2 exGroupGen (by decide)⟩

end SubNav
